import Mathlib

/-!
# Engram layer hook: a shallow embedding of `llama-engram.cpp` and `llama-engram-complete.cpp`

The two translation units share their helper functions (`is_prime`, `find_next_prime`,
`simple_hash`, `engram_init`) verbatim and differ in `engram_apply`.

Conventions of the embedding:

* a C pointer is an `Option` (`none` is `nullptr`);
* `int` values are integers (`Int`) checked against the 32-bit range: a signed overflow
  is a `Fault`. `is_prime` is also read over the mathematical integers, as the reference
  for the proofs about `is_prime_int32`;
* undefined behaviour and aborts are explicit: such a run ends in `Except.error`;
* `ggml_add` belongs to the host runtime and is a parameter of the functions that call it;
  a term model of it is given for the concrete scenarios.
-/

namespace Engram

/-! ## Faults -/

/-- Ways in which a run of the C code leaves defined behaviour. -/
inductive Fault
  | signed_overflow
  | out_of_bounds_read
  | null_dereference
  deriving DecidableEq, Repr

deriving instance DecidableEq for Except

/-- Largest value of a 32-bit `int`. -/
def INT_MAX : Int := 2147483647

/-- Smallest value of a 32-bit `int`. -/
def INT_MIN : Int := -2147483648

/-- Result of an `int` operation whose mathematical value is `x`: the value when it is
representable, undefined behaviour otherwise. -/
def int32 (x : Int) : Except Fault Int :=
  if INT_MIN ≤ x ∧ x ≤ INT_MAX then .ok x else .error .signed_overflow

/-! ## `is_prime` -/

/-- The `for (int i = 5; i * i <= n; i += 6)` loop of `is_prime`, entered at `i` (from
`is_prime`: at 5, so that no divisor is zero), over the mathematical integers. The
operator `%` of C is truncated remainder, `Int.tmod`. -/
def is_prime_loop (n : Int) (i : Int) : Bool :=
  if i * i ≤ n then
    if Int.tmod n i = 0 ∨ Int.tmod n (i + 2) = 0 then false
    else is_prime_loop n (i + 6)
  else true
termination_by (n + 6 - i).toNat
decreasing_by
  have h1 : i ≤ i * i := by nlinarith [sq_nonneg (i - 1), sq_nonneg i]
  omega

/-- Source function `is_prime` read over the mathematical integers: the reference against
which the 32-bit `is_prime_int32` is proved, and which it equals on every normal return. -/
def is_prime (n : Int) : Bool :=
  if n ≤ 1 then false
  else if n ≤ 3 then true
  else if Int.tmod n 2 = 0 ∨ Int.tmod n 3 = 0 then false
  else is_prime_loop n 5

/-- The loop of `is_prime` on a 32-bit `int`: evaluating `i * i` beyond `INT_MAX` is
undefined behaviour. (`i + 2` and `i += 6` cannot overflow once `i * i` has not.) -/
def is_prime_loop_int32 (n : Int) (i : Int) : Except Fault Bool :=
  if INT_MAX < i * i then .error .signed_overflow
  else if i * i ≤ n then
    if Int.tmod n i = 0 ∨ Int.tmod n (i + 2) = 0 then .ok false
    else is_prime_loop_int32 n (i + 6)
  else .ok true
termination_by (n + 6 - i).toNat
decreasing_by
  have h1 : i ≤ i * i := by nlinarith [sq_nonneg (i - 1), sq_nonneg i]
  omega

/-- Source function `is_prime` on a 32-bit `int`. -/
def is_prime_int32 (n : Int) : Except Fault Bool :=
  if n ≤ 1 then .ok false
  else if n ≤ 3 then .ok true
  else if Int.tmod n 2 = 0 ∨ Int.tmod n 3 = 0 then .ok false
  else is_prime_loop_int32 n 5

/-! ## `find_next_prime` -/

/-- The range-for of `find_next_prime`: `found` becomes true at the first element equal to
`candidate`. -/
def seen_loop (candidate : Int) : List Int → Bool
  | [] => false
  | p :: rest => if p = candidate then true else seen_loop candidate rest

/-- The `while (true)` loop of `find_next_prime` on 32-bit `int`s, entered at `candidate`
and run for at most `fuel` iterations (`.ok none`: the iterations were used up before the
loop returned). `is_prime(candidate)` may overflow in `i * i`, and `candidate++` at
`INT_MAX` is undefined behaviour. -/
def find_next_prime_loop (seen_primes : List Int) : Nat → Int → Except Fault (Option Int)
  | 0, _ => .ok none
  | fuel + 1, candidate =>
    match is_prime_int32 candidate with
    | .error e => .error e
    | .ok prime =>
      if prime && !(seen_loop candidate seen_primes) then .ok (some candidate)
      else
        match int32 (candidate + 1) with
        | .error e => .error e
        | .ok next => find_next_prime_loop seen_primes fuel next

/-- Source function `find_next_prime` on 32-bit `int`s, with a bound on the number of
iterations of its loop. -/
def find_next_prime (fuel : Nat) (start : Int) (seen_primes : List Int) :
    Except Fault (Option Int) :=
  find_next_prime_loop seen_primes fuel start

/-! ## `simple_hash` -/

/-- Source function `simple_hash` on 32-bit `int`s: the product and the sum are checked
for overflow, `%` is truncated remainder. -/
def simple_hash (a b : Int) : Except Fault Int := do
  let PRIME_1 : Int := 10007
  let prod ← int32 (a * PRIME_1)
  let sum ← int32 (prod + b)
  pure (Int.tmod sum 1000000007)

/-! ## Configuration and context (`llama-engram.h`) -/

/-- Source struct `engram_config`. The field `layer_ids` holds the array behind the
`int *` (a null pointer is the empty array); `n_layer_ids` is a field of its own and need
not agree with the length of that array. -/
structure engram_config where
  max_ngram_size : Int
  n_embed_per_ngram : Int
  n_head_per_ngram : Int
  layer_ids : List Int
  n_layer_ids : Int
  pad_id : Int
  seed : Int
  kernel_size : Int
  tokenizer_name_or_path : Option String
  deriving DecidableEq, Repr

/-- Source struct `engram_context`. -/
structure engram_context where
  cfg : engram_config
  initialized : Bool
  deriving DecidableEq, Repr

/-- The object made by `new engram_context()`: value-initialised, so every field is zero. -/
def engram_context_new : engram_context :=
  { cfg :=
      { max_ngram_size := 0, n_embed_per_ngram := 0, n_head_per_ngram := 0, layer_ids := [],
        n_layer_ids := 0, pad_id := 0, seed := 0, kernel_size := 0,
        tokenizer_name_or_path := none },
    initialized := false }

/-- Source function `engram_init` (the same text in both files). The `new` expression
yields a non-null pointer. -/
def engram_init (cfg : engram_config) : Option engram_context :=
  let ctx : Option engram_context := some engram_context_new
  match ctx with
  | none => none
  | some c => some { c with cfg := cfg, initialized := true }

/-- The config invariant as the specification words it (section 3, the parts that
`ConfigError` names): `K >= 1`, `E > 0`, `H > 0`, `C >= 1` and a non-empty layer set. -/
def config_invariant_spec (cfg : engram_config) : Bool :=
  decide (1 ≤ cfg.max_ngram_size ∧ 0 < cfg.n_embed_per_ngram ∧ 0 < cfg.n_head_per_ngram ∧
    1 ≤ cfg.kernel_size ∧ cfg.n_layer_ids ≠ 0)

/-- The membership loop of `engram_apply`,
`for (int i = 0; i < n_layer_ids; i++) if (layer_ids[i] == layer_id) { ...; break; }`,
entered at index `i` with `remaining = n_layer_ids - i` iterations to go; the value is
the flag `apply_engram`. Reading past the end of the array is undefined behaviour. -/
def layer_loop (cfg : engram_config) (layer_id : Int) : Nat → Nat → Except Fault Bool
  | 0, _ => .ok false
  | remaining + 1, i =>
    match cfg.layer_ids[i]? with
    | none => .error .out_of_bounds_read
    | some v => if v = layer_id then .ok true else layer_loop cfg layer_id remaining (i + 1)

/-! ## The host's graph primitives -/

/-- Modelled from the spec: the type of the host function `ggml_add`, "the host's
tensor-creation and elementwise-add primitives", whose code is not part of the two files.
It receives the graph-context pointer and the two operand pointers; a normal return gives
the new state of the graph context and the tensor returned, and the host may abort. The
functions below take it as a parameter. -/
abbrev ggml_add_t (G T : Type) : Type :=
  Option G → Option T → Option T → Except Fault (G × Option T)

/-- Modelled from the spec: the host runtime's tensor, "typed multi-dimensional arrays
with shape (sequence_length, width)", seen as a node of the dataflow graph: an input array
or the sum of two nodes. -/
inductive ggml_tensor
  | input (sequence_length width : Nat) (data : List Int)
  | add (a b : ggml_tensor)
  deriving DecidableEq, Repr

/-- Sequence length of a tensor; a sum has the shape of its first operand. -/
def ggml_tensor.sequence_length : ggml_tensor → Nat
  | .input n _ _ => n
  | .add a _ => a.sequence_length

/-- Modelled from the spec: the host's graph context, as the list of the nodes created in
it so far. -/
structure ggml_context where
  nodes : List ggml_tensor
  deriving DecidableEq, Repr

/-- Modelled from the spec: a host add, "the host's tensor-creation and elementwise-add
primitives": it creates in the graph context a new node standing for the elementwise sum
of its operands and returns it; a null context or operand is dereferenced. -/
def ggml_add : ggml_add_t ggml_context ggml_tensor
  | some g, some a, some b => .ok ({ nodes := g.nodes ++ [.add a b] }, some (.add a b))
  | _, _, _ => .error .null_dereference

/-! ## The stages of `llama-engram-complete.cpp` -/

/-- Source function `compute_ngram_hashes`: the placeholder returns `input_ids`. -/
def compute_ngram_hashes {G T M : Type} (_ctx : Option engram_context) (_ctx0 : Option G)
    (_model : M) (input_ids : Option T) (_layer_id : Int) : Option T :=
  input_ids

/-- Source function `apply_context_gating`. The result is the graph context after the call
and the tensor returned. -/
def apply_context_gating {G T M : Type} (ggml_add : ggml_add_t G T)
    (_ctx : Option engram_context) (ctx0 : Option G) (_model : M)
    (hidden_states ngram_features : Option T) (_layer_id : Int) :
    Except Fault (Option G × Option T) :=
  if hidden_states.isNone || ngram_features.isNone then
    .ok (ctx0, hidden_states)
  else do
    let (g, result) ← ggml_add ctx0 hidden_states ngram_features
    pure (some g, result)

/-- Source function `apply_short_conv`: the placeholder returns `gated_features`. -/
def apply_short_conv {G T M : Type} (_ctx : Option engram_context) (_ctx0 : Option G)
    (_model : M) (gated_features : Option T) (_layer_id : Int) : Option T :=
  gated_features

/-! ## `engram_apply` -/

/-- Source function `engram_apply` of `llama-engram.cpp`. The result is the graph context
after the call and the tensor returned. -/
def llama_engram.engram_apply {G T M : Type} (ctx : Option engram_context)
    (ctx0 : Option G) (_model : M) (hidden_states _input_ids : Option T) (layer_id : Int) :
    Except Fault (Option G × Option T) :=
  match ctx with
  | none => .ok (ctx0, none)
  | some c =>
    if !c.initialized || ctx0.isNone then .ok (ctx0, none)
    else do
      let apply_engram ← layer_loop c.cfg layer_id c.cfg.n_layer_ids.toNat 0
      if !apply_engram then
        pure (ctx0, hidden_states)
      else
        pure (ctx0, hidden_states)

/-- Source function `engram_apply` of `llama-engram-complete.cpp`. The result is the graph
context after the call and the tensor returned. -/
def llama_engram_complete.engram_apply {G T M : Type} (ggml_add : ggml_add_t G T)
    (ctx : Option engram_context) (ctx0 : Option G) (model : M)
    (hidden_states input_ids : Option T) (layer_id : Int) :
    Except Fault (Option G × Option T) :=
  match ctx with
  | none => .ok (ctx0, hidden_states)
  | some c =>
    if !c.initialized || ctx0.isNone then .ok (ctx0, hidden_states)
    else do
      let apply_engram ← layer_loop c.cfg layer_id c.cfg.n_layer_ids.toNat 0
      if !apply_engram then
        pure (ctx0, hidden_states)
      else do
        let ngram_features := compute_ngram_hashes ctx ctx0 model input_ids layer_id
        let (ctx1, gated_features) ←
          apply_context_gating ggml_add ctx ctx0 model hidden_states ngram_features layer_id
        let convolved_features := apply_short_conv ctx ctx1 model gated_features layer_id
        let (g, result) ← ggml_add ctx1 hidden_states convolved_features
        pure (some g, result)

/-! ## The scenarios of the specification -/

/-- The configuration of `example_engram_integration` and of Scenario A:
`K=3, E=128, H=4, layers={0,1}, pad_id=0, kernel=3` (seed 42). -/
def scenario_A_cfg : engram_config :=
  { max_ngram_size := 3, n_embed_per_ngram := 128, n_head_per_ngram := 4, layer_ids := [0, 1],
    n_layer_ids := 2, pad_id := 0, seed := 42, kernel_size := 3,
    tokenizer_name_or_path := some "tokenizer.json" }

/-- The token sequence `[5, 12, 5, 12, 9]` of Scenario A as a tensor of token ids. -/
def scenario_A_tokens : ggml_tensor := .input 5 1 [5, 12, 5, 12, 9]

/-- Hidden states for the five positions of Scenario A (width 2). -/
def scenario_A_hidden : ggml_tensor := .input 5 2 [1, 2, 3, 4, 5, 6, 7, 8, 9, 10]

/-- Scenario B: the configuration of Scenario A with an empty layer set. -/
def scenario_B_cfg : engram_config :=
  { scenario_A_cfg with layer_ids := [], n_layer_ids := 0 }

/-- Scenario C: hidden states of sequence length 10 (width 1). -/
def scenario_C_hidden : ggml_tensor := .input 10 1 [0, 0, 0, 0, 0, 0, 0, 0, 0, 0]

/-- Scenario C: token ids of sequence length 8. -/
def scenario_C_tokens : ggml_tensor := .input 8 1 [5, 12, 5, 12, 9, 5, 12, 9]

/-- An empty graph context. -/
def empty_graph : ggml_context := { nodes := [] }

theorem tmod_eq_zero_iff_dvd {n d : Int} (hn : 0 ≤ n) (hd : 0 ≤ d) :
    Int.tmod n d = 0 ↔ d ∣ n := by
  rw [Int.tmod_eq_emod hn hd, Int.dvd_iff_emod_eq_zero]

/-- Trial division by `i` and `i + 2` for `i = 5, 11, 17, ...` decides whether `n` has a
proper divisor, given that no number in `[2, i)` divides `n`. -/
theorem is_prime_loop_spec (n : Int) (h2 : ¬ (2 : Int) ∣ n) (h3 : ¬ (3 : Int) ∣ n) (i : Int) :
    5 ≤ i → i % 6 = 5 → (∀ d : Int, 2 ≤ d → d < i → ¬ d ∣ n) →
      (is_prime_loop n i = true ↔ ∀ d : Int, 2 ≤ d → d < n → ¬ d ∣ n) := by
  induction i using is_prime_loop.induct n with
  | case1 x hle hdiv =>
    intro h5 _ _
    have hn : 0 ≤ n := by nlinarith
    have hxn : x + 2 < n := by nlinarith
    rw [is_prime_loop, if_pos hle, if_pos hdiv]
    simp only [Bool.false_eq_true, false_iff, not_forall]
    rcases hdiv with h | h
    · exact ⟨x, by omega, by omega, not_not.mpr ((tmod_eq_zero_iff_dvd hn (by omega)).1 h)⟩
    · exact ⟨x + 2, by omega, by omega, not_not.mpr ((tmod_eq_zero_iff_dvd hn (by omega)).1 h)⟩
  | case2 x hle hdiv ih =>
    intro h5 hmod hinv
    have hn : 0 ≤ n := by nlinarith
    rw [is_prime_loop, if_pos hle, if_neg hdiv]
    push_neg at hdiv
    have hx : ¬ x ∣ n := fun h => hdiv.1 ((tmod_eq_zero_iff_dvd hn (by omega)).2 h)
    have hx2 : ¬ (x + 2) ∣ n := fun h => hdiv.2 ((tmod_eq_zero_iff_dvd hn (by omega)).2 h)
    refine ih (by omega) (by omega) ?_
    intro d hd2 hdlt hdn
    by_cases hlt : d < x
    · exact hinv d hd2 hlt hdn
    · have hcases : d = x ∨ d = x + 2 ∨ (2 : Int) ∣ d ∨ (3 : Int) ∣ d := by
        have : d = x ∨ d = x + 1 ∨ d = x + 2 ∨ d = x + 3 ∨ d = x + 4 ∨ d = x + 5 := by omega
        rcases this with h | h | h | h | h | h
        · exact Or.inl h
        · exact Or.inr (Or.inr (Or.inl (Int.dvd_of_emod_eq_zero (by omega))))
        · exact Or.inr (Or.inl h)
        · exact Or.inr (Or.inr (Or.inl (Int.dvd_of_emod_eq_zero (by omega))))
        · exact Or.inr (Or.inr (Or.inr (Int.dvd_of_emod_eq_zero (by omega))))
        · exact Or.inr (Or.inr (Or.inl (Int.dvd_of_emod_eq_zero (by omega))))
      rcases hcases with h | h | h | h
      · exact hx (h ▸ hdn)
      · exact hx2 (h ▸ hdn)
      · exact h2 (dvd_trans h hdn)
      · exact h3 (dvd_trans h hdn)
  | case3 x hle =>
    intro h5 _ hinv
    rw [is_prime_loop, if_neg hle]
    simp only [true_iff]
    intro d hd2 hdn hdvd
    obtain ⟨k, hk⟩ := hdvd
    have hdx : x ≤ d := by
      by_contra hc
      exact hinv d hd2 (by omega) ⟨k, hk⟩
    have hk2 : 2 ≤ k := by
      by_contra hc
      have : k ≤ 1 := by omega
      nlinarith
    have hkx : x ≤ k := by
      by_contra hc
      exact hinv k hk2 (by omega) ⟨d, by rw [hk]; ring⟩
    nlinarith

theorem int_prime_iff (n : Int) (hn : 2 ≤ n) :
    (∀ d : Int, 2 ≤ d → d < n → ¬ d ∣ n) ↔ Nat.Prime n.toNat := by
  rw [Nat.prime_def_lt']
  constructor
  · intro h
    refine ⟨by omega, fun m hm2 hmlt hdvd => ?_⟩
    refine h (m : Int) (by omega) (by omega) ?_
    have : ((n.toNat : Nat) : Int) = n := Int.toNat_of_nonneg (by omega)
    rw [← this]
    exact Int.natCast_dvd_natCast.2 hdvd
  · rintro ⟨_, h⟩ d hd2 hdlt hdvd
    refine h d.toNat (by omega) (by omega) ?_
    rw [← Int.natCast_dvd_natCast, Int.toNat_of_nonneg (by omega), Int.toNat_of_nonneg (by omega)]
    exact hdvd

/-- `is_prime` over the integers is a primality test. -/
theorem is_prime_iff (n : Int) : is_prime n = true ↔ Nat.Prime n.toNat := by
  unfold is_prime
  by_cases h1 : n ≤ 1
  · rw [if_pos h1]
    have : n.toNat ≤ 1 := by omega
    have hnp : ¬ Nat.Prime n.toNat := fun hp => by have := hp.two_le; omega
    simp [hnp]
  rw [if_neg h1]
  by_cases h3 : n ≤ 3
  · rw [if_pos h3]
    have : n.toNat = 2 ∨ n.toNat = 3 := by omega
    rcases this with h | h <;> simp [h, Nat.prime_two, Nat.prime_three]
  rw [if_neg h3]
  have hn0 : 0 ≤ n := by omega
  by_cases hdiv : Int.tmod n 2 = 0 ∨ Int.tmod n 3 = 0
  · rw [if_pos hdiv]
    simp only [Bool.false_eq_true, false_iff]
    rw [← int_prime_iff n (by omega)]
    push_neg
    rcases hdiv with h | h
    · exact ⟨2, by omega, by omega, (tmod_eq_zero_iff_dvd hn0 (by omega)).1 h⟩
    · exact ⟨3, by omega, by omega, (tmod_eq_zero_iff_dvd hn0 (by omega)).1 h⟩
  · rw [if_neg hdiv]
    push_neg at hdiv
    have h2 : ¬ (2 : Int) ∣ n := fun h => hdiv.1 ((tmod_eq_zero_iff_dvd hn0 (by omega)).2 h)
    have h3' : ¬ (3 : Int) ∣ n := fun h => hdiv.2 ((tmod_eq_zero_iff_dvd hn0 (by omega)).2 h)
    rw [is_prime_loop_spec n h2 h3' 5 (by omega) (by omega) ?_, int_prime_iff n (by omega)]
    intro d hd2 hd5 hdvd
    have : d = 2 ∨ d = 3 ∨ d = 4 := by omega
    rcases this with h | h | h
    · exact h2 (h ▸ hdvd)
    · exact h3' (h ▸ hdvd)
    · exact h2 (dvd_trans (by rw [h]; exact ⟨2, by norm_num⟩) hdvd)

theorem is_prime_loop_int32_sound (n : Int) (i : Int) (b : Bool) :
    is_prime_loop_int32 n i = .ok b → is_prime_loop n i = b := by
  induction i using is_prime_loop_int32.induct n with
  | case1 x hov =>
    rw [is_prime_loop_int32, if_pos hov]
    intro h
    cases h
  | case2 x hov hle hdiv =>
    rw [is_prime_loop_int32, if_neg hov, if_pos hle, if_pos hdiv, is_prime_loop, if_pos hle,
      if_pos hdiv]
    intro h
    cases h
    rfl
  | case3 x hov hle hdiv ih =>
    rw [is_prime_loop_int32, if_neg hov, if_pos hle, if_neg hdiv, is_prime_loop, if_pos hle,
      if_neg hdiv]
    exact ih
  | case4 x hov hle =>
    rw [is_prime_loop_int32, if_neg hov, if_neg hle, is_prime_loop, if_neg hle]
    intro h
    cases h
    rfl

theorem is_prime_loop_int32_total (n : Int) (hn : n < 2147117569) (i : Int) :
    5 ≤ i → i % 6 = 5 → i ≤ 46337 →
      is_prime_loop_int32 n i = .ok (is_prime_loop n i) := by
  induction i using is_prime_loop.induct n with
  | case1 x hle hdiv =>
    intro h5 _ hub
    have hov : ¬ INT_MAX < x * x := by unfold INT_MAX; nlinarith
    rw [is_prime_loop_int32, if_neg hov, if_pos hle, if_pos hdiv, is_prime_loop, if_pos hle,
      if_pos hdiv]
  | case2 x hle hdiv ih =>
    intro h5 hmod hub
    have hov : ¬ INT_MAX < x * x := by unfold INT_MAX; nlinarith
    have hx : x < 46337 := by nlinarith
    rw [is_prime_loop_int32, if_neg hov, if_pos hle, if_neg hdiv, is_prime_loop, if_pos hle,
      if_neg hdiv]
    exact ih (by omega) (by omega) (by omega)
  | case3 x hle =>
    intro h5 _ hub
    have hov : ¬ INT_MAX < x * x := by unfold INT_MAX; nlinarith
    rw [is_prime_loop_int32, if_neg hov, if_neg hle, is_prime_loop, if_neg hle]

theorem is_prime_int32_sound (n : Int) (b : Bool) (h : is_prime_int32 n = .ok b) :
    is_prime n = b := by
  unfold is_prime_int32 at h
  unfold is_prime
  split_ifs at h ⊢
  · cases h; rfl
  · cases h; rfl
  · cases h; rfl
  · exact is_prime_loop_int32_sound n 5 b h

theorem is_prime_int32_total (n : Int) (hn : n < 2147117569) :
    is_prime_int32 n = .ok (is_prime n) := by
  unfold is_prime_int32 is_prime
  split_ifs
  · rfl
  · rfl
  · rfl
  · exact is_prime_loop_int32_total n hn 5 (by omega) (by omega) (by omega)

/-- C8: `is_prime` on a 32-bit `int` is a primality test wherever `i * i` does not
overflow: whenever the call returns, it returns true exactly for the prime numbers, and
for every `n < 46337 * 46337 = 2147117569` (zero and the negative numbers included) it
does return. -/
theorem is_prime_int32_correct (n : Int) :
    (∀ b : Bool, is_prime_int32 n = .ok b → (b = true ↔ Nat.Prime n.toNat)) ∧
      (n < 46337 * 46337 → is_prime_int32 n = .ok (decide (Nat.Prime n.toNat))) := by
  constructor
  · intro b hb
    rw [← is_prime_iff n, is_prime_int32_sound n b hb]
  · intro hn
    rw [is_prime_int32_total n (by omega)]
    congr 1
    rw [Bool.eq_iff_iff]
    simp [is_prime_iff]

theorem is_prime_int32_correct_witness :
    (true = true ↔ Nat.Prime (97 : Int).toNat) ∧
      is_prime_int32 97 = .ok (decide (Nat.Prime (97 : Int).toNat)) :=
  ⟨(is_prime_int32_correct 97).1 true (by
      simp [is_prime_int32, is_prime_loop_int32, INT_MAX]
      decide),
    (is_prime_int32_correct 97).2 (by decide)⟩

/-- C10: `simple_hash` stays in the bucket range. For `a >= 0` and `b >= 0` with
`a * 10007 + b <= 2147483647` (no 32-bit overflow), `simple_hash(a, b)` returns
`(a * 10007 + b) mod 1000000007`, a value in `[0, 1000000007)`. -/
theorem simple_hash_in_range (a b : Int) (ha : 0 ≤ a) (hb : 0 ≤ b)
    (hsum : a * 10007 + b ≤ 2147483647) :
    simple_hash a b = .ok ((a * 10007 + b) % 1000000007) ∧
      0 ≤ (a * 10007 + b) % 1000000007 ∧ (a * 10007 + b) % 1000000007 < 1000000007 := by
  refine ⟨?_, by omega, by omega⟩
  have h1 : int32 (a * 10007) = .ok (a * 10007) := by
    unfold int32 INT_MIN INT_MAX
    rw [if_pos (by omega)]
  have h2 : int32 (a * 10007 + b) = .ok (a * 10007 + b) := by
    unfold int32 INT_MIN INT_MAX
    rw [if_pos (by omega)]
  simp only [simple_hash, h1, h2, bind, Except.bind, pure, Except.pure]
  rw [Int.tmod_eq_emod (by omega) (by omega)]

theorem simple_hash_in_range_witness :
    simple_hash 5 12 = .ok ((5 * 10007 + 12) % 1000000007) ∧
      0 ≤ ((5 : Int) * 10007 + 12) % 1000000007 ∧
      ((5 : Int) * 10007 + 12) % 1000000007 < 1000000007 :=
  simple_hash_in_range 5 12 (by decide) (by decide) (by decide)

/-! ## Next unseen prime -/

theorem seen_loop_iff (candidate : Int) (seen_primes : List Int) :
    seen_loop candidate seen_primes = true ↔ candidate ∈ seen_primes := by
  induction seen_primes with
  | nil => simp [seen_loop]
  | cons p rest ih =>
    unfold seen_loop
    by_cases h : p = candidate
    · simp [h]
    · rw [if_neg h, ih]
      simp [Ne.symm h]

theorem exists_unseen_prime (start : Int) (seen_primes : List Int) :
    ∃ d : Nat, is_prime (start + d) = true ∧ start + d ∉ seen_primes := by
  have hbound : ∃ B : Int, ∀ x ∈ seen_primes, x ≤ B := by
    induction seen_primes with
    | nil => exact ⟨0, by simp⟩
    | cons a l ih =>
      obtain ⟨B, hB⟩ := ih
      refine ⟨max a B, ?_⟩
      intro x hx
      rcases List.mem_cons.1 hx with h | h
      · rw [h]; exact le_max_left _ _
      · exact le_trans (hB x h) (le_max_right _ _)
  obtain ⟨B, hB⟩ := hbound
  obtain ⟨p, hpge, hpp⟩ := Nat.exists_infinite_primes ((max B start).toNat + 1)
  have h1 : max B start < (p : Int) := by omega
  have hB' : B < (p : Int) := lt_of_le_of_lt (le_max_left _ _) h1
  have hs' : start < (p : Int) := lt_of_le_of_lt (le_max_right _ _) h1
  refine ⟨((p : Int) - start).toNat, ?_, ?_⟩
  · have : start + (((p : Int) - start).toNat : Int) = p := by omega
    rw [this, is_prime_iff]
    simpa using hpp
  · have : start + (((p : Int) - start).toNat : Int) = p := by omega
    rw [this]
    intro hmem
    have := hB _ hmem
    omega

theorem int32_ok_of_range (x : Int) (hlo : INT_MIN ≤ x) (hhi : x ≤ INT_MAX) :
    int32 x = .ok x := by
  unfold int32
  rw [if_pos ⟨hlo, hhi⟩]

theorem int32_eq_ok (x y : Int) (h : int32 x = .ok y) : y = x := by
  unfold int32 at h
  split_ifs at h
  cases h
  rfl

/-- Running the 32-bit loop from `c` when an unseen prime lies `d` steps ahead: with
`d + 1` iterations or more the run either ends in a fault or returns the first unseen
prime from `c` on. -/
theorem find_next_prime_loop_spec (seen_primes : List Int) (d : Nat) :
    ∀ c : Int, is_prime (c + d) = true → c + d ∉ seen_primes →
      ∀ fuel : Nat, d + 1 ≤ fuel →
        (∃ e : Fault, find_next_prime_loop seen_primes fuel c = .error e) ∨
        ∃ p : Int, find_next_prime_loop seen_primes fuel c = .ok (some p) ∧ c ≤ p ∧
          is_prime p = true ∧ p ∉ seen_primes ∧
          ∀ q : Int, c ≤ q → q < p → is_prime q = true → q ∈ seen_primes := by
  induction d with
  | zero =>
    intro c hp hs fuel hfuel
    obtain ⟨f, rfl⟩ : ∃ f, fuel = f + 1 := ⟨fuel - 1, by omega⟩
    simp only [Nat.cast_zero, add_zero] at hp hs
    have hseen : seen_loop c seen_primes = false := by
      rw [← Bool.not_eq_true, seen_loop_iff]
      exact hs
    rw [find_next_prime_loop]
    cases hpc : is_prime_int32 c with
    | error e => exact Or.inl ⟨e, rfl⟩
    | ok b =>
      have hb : b = true := by rw [← is_prime_int32_sound c b hpc]; exact hp
      refine Or.inr ⟨c, ?_, le_refl c, hp, hs, fun q h1 h2 => by omega⟩
      simp [hb, hseen]
  | succ d ih =>
    intro c hp hs fuel hfuel
    obtain ⟨f, rfl⟩ : ∃ f, fuel = f + 1 := ⟨fuel - 1, by omega⟩
    rw [find_next_prime_loop]
    cases hpc : is_prime_int32 c with
    | error e => exact Or.inl ⟨e, rfl⟩
    | ok b =>
      have hb : is_prime c = b := is_prime_int32_sound c b hpc
      by_cases hc : is_prime c = true ∧ c ∉ seen_primes
      · have hseen : seen_loop c seen_primes = false := by
          rw [← Bool.not_eq_true, seen_loop_iff]
          exact hc.2
        refine Or.inr ⟨c, ?_, le_refl c, hc.1, hc.2, fun q h1 h2 => by omega⟩
        have hbt : b = true := by rw [← hb]; exact hc.1
        simp [hbt, hseen]
      · have hcond : (b && !(seen_loop c seen_primes)) = false := by
          rw [← hb]
          by_cases hpc2 : is_prime c = true
          · have hin : c ∈ seen_primes := by
              by_contra hn
              exact hc ⟨hpc2, hn⟩
            simp [hpc2, (seen_loop_iff c seen_primes).2 hin]
          · simp [hpc2]
        simp only [hcond, Bool.false_eq_true, if_false]
        cases hnext : int32 (c + 1) with
        | error e => exact Or.inl ⟨e, rfl⟩
        | ok next =>
          have hn : next = c + 1 := int32_eq_ok _ _ hnext
          subst hn
          have hcast : c + 1 + (d : Int) = c + ((d + 1 : Nat) : Int) := by push_cast; ring
          rcases ih (c + 1) (by rw [hcast]; exact hp) (by rw [hcast]; exact hs) f (by omega)
            with ⟨e, he⟩ | ⟨p, hrun, hle, hpp, hps, hmin⟩
          · exact Or.inl ⟨e, he⟩
          · refine Or.inr ⟨p, hrun, by omega, hpp, hps, ?_⟩
            intro q h1 h2 hq
            by_cases hqc : q = c
            · subst hqc
              by_contra hn
              exact hc ⟨hq, hn⟩
            · exact hmin q (by omega) h2 hq

/-- No step of the 32-bit loop overflows while an unseen prime below `46337 * 46337` lies
ahead of the candidate. -/
theorem find_next_prime_loop_no_fault (seen_primes : List Int) (fuel : Nat) :
    ∀ c : Int, INT_MIN ≤ c →
      (∃ q : Int, c ≤ q ∧ q < 46337 * 46337 ∧ is_prime q = true ∧ q ∉ seen_primes) →
      ∀ e : Fault, find_next_prime_loop seen_primes fuel c ≠ .error e := by
  induction fuel with
  | zero =>
    intro c _ _ e h
    rw [find_next_prime_loop] at h
    cases h
  | succ f ih =>
    rintro c hlo ⟨q, hcq, hqb, hqp, hqs⟩ e
    rw [find_next_prime_loop, is_prime_int32_total c (by omega)]
    simp only
    by_cases hcond : (is_prime c && !(seen_loop c seen_primes)) = true
    · rw [if_pos hcond]
      intro h
      cases h
    · rw [if_neg hcond]
      have hne : c ≠ q := by
        intro h
        subst h
        apply hcond
        have hseen : seen_loop c seen_primes = false := by
          rw [← Bool.not_eq_true, seen_loop_iff]
          exact hqs
        simp [hqp, hseen]
      have hlo2 : INT_MIN ≤ c + 1 := by omega
      have hhi2 : c + 1 ≤ INT_MAX := by unfold INT_MAX; omega
      rw [int32_ok_of_range (c + 1) hlo2 hhi2]
      exact ih (c + 1) hlo2 ⟨q, by omega, hqb, hqp, hqs⟩ e

/-- C9: `find_next_prime` on 32-bit `int`s returns the next unseen prime wherever the
arithmetic does not overflow. For every `start` and every finite list `seen_primes`: if
no run of the loop ends in an overflow, the loop returns after finitely many iterations
(every large enough iteration bound gives the same result `p`), and `p` is a prime
number, `p >= start`, `p` does not occur in `seen_primes`, and every prime `q` with
`start <= q < p` occurs in `seen_primes`. No run overflows when `start` is an `int` and
some prime in `[start, 46337 * 46337)` does not occur in `seen_primes`. -/
theorem find_next_prime_spec (start : Int) (seen_primes : List Int) :
    ((∀ (fuel : Nat) (e : Fault), find_next_prime fuel start seen_primes ≠ .error e) →
      ∃ p : Int,
        (∃ fuel0 : Nat, ∀ fuel : Nat, fuel0 ≤ fuel →
          find_next_prime fuel start seen_primes = .ok (some p)) ∧
        Nat.Prime p.toNat ∧ start ≤ p ∧ p ∉ seen_primes ∧
        ∀ q : Int, start ≤ q → q < p → Nat.Prime q.toNat → q ∈ seen_primes) ∧
      (INT_MIN ≤ start →
        (∃ q : Int, start ≤ q ∧ q < 46337 * 46337 ∧ Nat.Prime q.toNat ∧ q ∉ seen_primes) →
        ∀ (fuel : Nat) (e : Fault), find_next_prime fuel start seen_primes ≠ .error e) := by
  constructor
  · intro hno
    obtain ⟨d, hd1, hd2⟩ := exists_unseen_prime start seen_primes
    have hrun : ∀ fuel : Nat, d + 1 ≤ fuel →
        ∃ p : Int, find_next_prime_loop seen_primes fuel start = .ok (some p) ∧ start ≤ p ∧
          is_prime p = true ∧ p ∉ seen_primes ∧
          ∀ q : Int, start ≤ q → q < p → is_prime q = true → q ∈ seen_primes := by
      intro fuel hfuel
      rcases find_next_prime_loop_spec seen_primes d start hd1 hd2 fuel hfuel with
        ⟨e, he⟩ | h
      · exact absurd he (hno fuel e)
      · exact h
    obtain ⟨p, _, hle, hpp, hps, hmin⟩ := hrun (d + 1) (le_refl _)
    refine ⟨p, ⟨d + 1, fun fuel hfuel => ?_⟩, (is_prime_iff p).1 hpp, hle, hps, ?_⟩
    · obtain ⟨p2, hrun2, _, hpp2, hps2, hmin2⟩ := hrun fuel hfuel
      have : p2 = p := by
        rcases lt_trichotomy p2 p with h | h | h
        · exact absurd (hmin p2 (by omega) h hpp2) hps2
        · exact h
        · exact absurd (hmin2 p (by omega) h hpp) hps
      rw [find_next_prime, hrun2, this]
    · intro q h1 h2 hq
      exact hmin q h1 h2 ((is_prime_iff q).2 hq)
  · rintro hlo ⟨q, h1, h2, h3, h4⟩ fuel e
    exact find_next_prime_loop_no_fault seen_primes fuel start hlo
      ⟨q, h1, h2, (is_prime_iff q).2 h3, h4⟩ e

theorem find_next_prime_spec_witness :
    ∃ p : Int,
      (∃ fuel0 : Nat, ∀ fuel : Nat, fuel0 ≤ fuel →
        find_next_prime fuel 10 [11, 13] = .ok (some p)) ∧
      Nat.Prime p.toNat ∧ 10 ≤ p ∧ p ∉ [11, 13] ∧
      ∀ q : Int, 10 ≤ q → q < p → Nat.Prime q.toNat → q ∈ [11, 13] :=
  (find_next_prime_spec 10 [11, 13]).1
    ((find_next_prime_spec 10 [11, 13]).2 (by decide)
      ⟨17, by decide, by decide, by show Nat.Prime 17; norm_num, by decide⟩)

/-! ## The membership loop -/

theorem layer_loop_absent (cfg : engram_config) (layer_id : Int) (remaining : Nat) :
    ∀ i : Nat,
      (∀ k : Nat, i ≤ k → k < i + remaining →
        ∃ v : Int, cfg.layer_ids[k]? = some v ∧ v ≠ layer_id) →
      layer_loop cfg layer_id remaining i = .ok false := by
  induction remaining with
  | zero => intro i _; rfl
  | succ r ih =>
    intro i h
    obtain ⟨v, hv, hne⟩ := h i (le_refl i) (by omega)
    rw [layer_loop, hv]
    simp only [if_neg hne]
    exact ih (i + 1) (fun k hk1 hk2 => h k (by omega) (by omega))

theorem layer_loop_present (cfg : engram_config) (layer_id : Int) (remaining : Nat) :
    ∀ i : Nat,
      (∃ j : Nat, i ≤ j ∧ j < i + remaining ∧ cfg.layer_ids[j]? = some layer_id) →
      layer_loop cfg layer_id remaining i = .ok true := by
  induction remaining with
  | zero =>
    rintro i ⟨j, h1, h2, _⟩
    omega
  | succ r ih =>
    rintro i ⟨j, h1, h2, hj⟩
    have hjlen : j < cfg.layer_ids.length := by
      by_contra hc
      rw [List.getElem?_eq_none (by omega)] at hj
      cases hj
    have hilen : i < cfg.layer_ids.length := by omega
    have hi : cfg.layer_ids[i]? = some cfg.layer_ids[i] := List.getElem?_eq_getElem hilen
    rw [layer_loop, hi]
    by_cases hv : cfg.layer_ids[i] = layer_id
    · simp only [if_pos hv]
    · simp only [if_neg hv]
      refine ih (i + 1) ⟨j, ?_, by omega, hj⟩
      by_contra hc
      have hji : j = i := by omega
      subst hji
      rw [hi] at hj
      exact hv (Option.some.inj hj)

theorem layer_loop_total (cfg : engram_config) (layer_id : Int) (remaining : Nat) :
    ∀ i : Nat, i + remaining ≤ cfg.layer_ids.length →
      ∃ b : Bool, layer_loop cfg layer_id remaining i = .ok b := by
  induction remaining with
  | zero => intro i _; exact ⟨false, rfl⟩
  | succ r ih =>
    intro i h
    have hilen : i < cfg.layer_ids.length := by omega
    have hi : cfg.layer_ids[i]? = some cfg.layer_ids[i] := List.getElem?_eq_getElem hilen
    rw [layer_loop, hi]
    by_cases hv : cfg.layer_ids[i] = layer_id
    · exact ⟨true, by simp only [if_pos hv]⟩
    · simp only [if_neg hv]
      exact ih (i + 1) (by omega)

theorem ggml_tensor.add_ne_left (a b : ggml_tensor) : ggml_tensor.add a b ≠ a := by
  intro h
  have := congrArg sizeOf h
  simp at this
  omega

/-! ## Claims about `engram_init` and `engram_apply` -/

/-- C1: pass-through. For the context returned by `engram_init` for any config, every
non-null graph context, every `hidden_states`, `input_ids` and every `layer_id` that does
not occur among the first `n_layer_ids` entries of `cfg.layer_ids`, `engram_apply` returns
exactly the `hidden_states` it was given and leaves the graph context as it was (no new
node), in `llama-engram.cpp` and in `llama-engram-complete.cpp`, whatever the host add. -/
theorem engram_apply_pass_through {G T M : Type} (ggml_add : ggml_add_t G T)
    (cfg : engram_config) (g : G) (model : M) (hidden_states input_ids : Option T)
    (layer_id : Int)
    (habsent : ∀ i : Nat, (i : Int) < cfg.n_layer_ids →
      ∃ v : Int, cfg.layer_ids[i]? = some v ∧ v ≠ layer_id) :
    llama_engram.engram_apply (engram_init cfg) (some g) model hidden_states input_ids layer_id
        = .ok (some g, hidden_states) ∧
      llama_engram_complete.engram_apply ggml_add (engram_init cfg) (some g) model
        hidden_states input_ids layer_id = .ok (some g, hidden_states) := by
  have hloop : layer_loop cfg layer_id cfg.n_layer_ids.toNat 0 = .ok false :=
    layer_loop_absent cfg layer_id _ 0 (fun k _ hk => habsent k (by omega))
  constructor
  · simp [llama_engram.engram_apply, engram_init, engram_context_new, hloop, bind, Except.bind,
      pure, Except.pure]
  · simp [llama_engram_complete.engram_apply, engram_init, engram_context_new, hloop, bind,
      Except.bind, pure, Except.pure]

theorem engram_apply_pass_through_witness :
    llama_engram.engram_apply (engram_init scenario_A_cfg) (some empty_graph) ()
        (some scenario_A_hidden) (some scenario_A_tokens) 5
        = .ok (some empty_graph, some scenario_A_hidden) ∧
      llama_engram_complete.engram_apply ggml_add (engram_init scenario_A_cfg)
        (some empty_graph) () (some scenario_A_hidden) (some scenario_A_tokens) 5
        = .ok (some empty_graph, some scenario_A_hidden) :=
  engram_apply_pass_through ggml_add scenario_A_cfg empty_graph ()
    (some scenario_A_hidden) (some scenario_A_tokens) 5 (by
      intro i hi
      have hi2 : i < 2 := by
        have : scenario_A_cfg.n_layer_ids = 2 := rfl
        omega
      interval_cases i
      · exact ⟨0, rfl, by decide⟩
      · exact ⟨1, rfl, by decide⟩)

/-- C2: residual combination. For every initialized context, non-null graph context and
`layer_id` that occurs among the first `n_layer_ids` entries of `cfg.layer_ids`,
`engram_apply` of `llama-engram-complete.cpp` returns
`hidden_states + convolve(gate(hidden_states, features))` with
`features = compute_ngram_hashes(input_ids)`, `gate = apply_context_gating`,
`convolve = apply_short_conv` and `+` the host add `ggml_add`, whatever the host add. -/
theorem engram_apply_residual_combination {G T M : Type} (ggml_add : ggml_add_t G T)
    (c : engram_context) (g : G) (model : M) (hidden_states input_ids : Option T)
    (layer_id : Int) (hinit : c.initialized = true)
    (hocc : ∃ j : Nat, (j : Int) < c.cfg.n_layer_ids ∧ c.cfg.layer_ids[j]? = some layer_id) :
    llama_engram_complete.engram_apply ggml_add (some c) (some g) model hidden_states
        input_ids layer_id =
      (apply_context_gating ggml_add (some c) (some g) model hidden_states
          (compute_ngram_hashes (some c) (some g) model input_ids layer_id) layer_id).bind
        (fun gated =>
          (ggml_add gated.1 hidden_states
              (apply_short_conv (some c) gated.1 model gated.2 layer_id)).map
            (fun sum => (some sum.1, sum.2))) := by
  obtain ⟨j, hj1, hj2⟩ := hocc
  have hloop : layer_loop c.cfg layer_id c.cfg.n_layer_ids.toNat 0 = .ok true :=
    layer_loop_present c.cfg layer_id _ 0 ⟨j, Nat.zero_le j, by omega, hj2⟩
  simp only [llama_engram_complete.engram_apply, hinit, hloop, bind, Except.bind, pure,
    Except.pure, Except.map]
  simp only [Bool.not_true, Option.isNone_some, Bool.or_self, Bool.false_eq_true, if_false]

theorem engram_apply_residual_combination_witness :
    llama_engram_complete.engram_apply ggml_add
        (some { cfg := scenario_A_cfg, initialized := true }) (some empty_graph) ()
        (some scenario_A_hidden) (some scenario_A_tokens) 0 =
      (apply_context_gating ggml_add (some { cfg := scenario_A_cfg, initialized := true })
          (some empty_graph) () (some scenario_A_hidden)
          (compute_ngram_hashes (some { cfg := scenario_A_cfg, initialized := true })
            (some empty_graph) () (some scenario_A_tokens) 0) 0).bind
        (fun gated =>
          (ggml_add gated.1 (some scenario_A_hidden)
              (apply_short_conv (some { cfg := scenario_A_cfg, initialized := true }) gated.1
                () gated.2 0)).map
            (fun sum => (some sum.1, sum.2))) :=
  engram_apply_residual_combination ggml_add { cfg := scenario_A_cfg, initialized := true }
    empty_graph () (some scenario_A_hidden) (some scenario_A_tokens) 0 rfl
    ⟨0, by decide, rfl⟩

/-- With the placeholders unfolded, the participating path of `llama-engram-complete.cpp`
on non-null tensors is `ggml_add(hidden_states, ggml_add(hidden_states, input_ids))`. -/
theorem engram_apply_complete_participating {M : Type} (c : engram_context)
    (g : ggml_context) (model : M) (h ids : ggml_tensor) (layer_id : Int)
    (hinit : c.initialized = true)
    (hloop : layer_loop c.cfg layer_id c.cfg.n_layer_ids.toNat 0 = .ok true) :
    llama_engram_complete.engram_apply ggml_add (some c) (some g) model (some h) (some ids)
        layer_id =
      .ok (some { nodes := g.nodes ++ [.add h ids] ++ [.add h (.add h ids)] },
        some (.add h (.add h ids))) := by
  simp [llama_engram_complete.engram_apply, hinit, hloop, bind, Except.bind, pure,
    Except.pure, apply_context_gating, compute_ngram_hashes, apply_short_conv, ggml_add]

theorem engram_apply_simple_returns {G T M : Type} (c : engram_context) (g : G) (model : M)
    (hidden_states input_ids : Option T) (layer_id : Int) (hinit : c.initialized = true)
    (b : Bool) (hloop : layer_loop c.cfg layer_id c.cfg.n_layer_ids.toNat 0 = .ok b) :
    llama_engram.engram_apply (some c) (some g) model hidden_states input_ids layer_id
      = .ok (some g, hidden_states) := by
  cases b <;>
    simp [llama_engram.engram_apply, hinit, hloop, bind, Except.bind, pure, Except.pure]

/-- C3 (amended): on a layer of the layer set, `llama-engram.cpp` is a placeholder and
returns the `hidden_states` tensor itself, while `llama-engram-complete.cpp`, given a
non-null `hidden_states` and `input_ids`, returns the host's new add node
`hidden_states + (hidden_states + input_ids)`, which is not the `hidden_states` tensor. -/
theorem engram_apply_participating_layer {M : Type} (c : engram_context) (g : ggml_context)
    (model : M) (h ids : ggml_tensor) (layer_id : Int) (hinit : c.initialized = true)
    (hocc : ∃ j : Nat, (j : Int) < c.cfg.n_layer_ids ∧ c.cfg.layer_ids[j]? = some layer_id) :
    llama_engram.engram_apply (some c) (some g) model (some h) (some ids) layer_id
        = .ok (some g, some h) ∧
      ∃ (g1 : ggml_context) (out : ggml_tensor),
        llama_engram_complete.engram_apply ggml_add (some c) (some g) model (some h)
          (some ids) layer_id = .ok (some g1, some out) ∧
        out = .add h (.add h ids) ∧ out ≠ h := by
  obtain ⟨j, hj1, hj2⟩ := hocc
  have hloop : layer_loop c.cfg layer_id c.cfg.n_layer_ids.toNat 0 = .ok true :=
    layer_loop_present c.cfg layer_id _ 0 ⟨j, Nat.zero_le j, by omega, hj2⟩
  refine ⟨engram_apply_simple_returns c g model _ _ layer_id hinit true hloop, _, _,
    engram_apply_complete_participating c g model h ids layer_id hinit hloop, rfl, ?_⟩
  exact ggml_tensor.add_ne_left h _

theorem engram_apply_participating_layer_witness :
    llama_engram.engram_apply (some { cfg := scenario_A_cfg, initialized := true })
        (some empty_graph) () (some scenario_A_hidden) (some scenario_A_tokens) 0
        = .ok (some empty_graph, some scenario_A_hidden) ∧
      ∃ (g1 : ggml_context) (out : ggml_tensor),
        llama_engram_complete.engram_apply ggml_add
          (some { cfg := scenario_A_cfg, initialized := true }) (some empty_graph) ()
          (some scenario_A_hidden) (some scenario_A_tokens) 0 = .ok (some g1, some out) ∧
        out = .add scenario_A_hidden (.add scenario_A_hidden scenario_A_tokens) ∧
        out ≠ scenario_A_hidden :=
  engram_apply_participating_layer { cfg := scenario_A_cfg, initialized := true } empty_graph ()
    scenario_A_hidden scenario_A_tokens 0 rfl ⟨0, by decide, rfl⟩

/-- C3 (counterexample): Scenario A in `llama-engram.cpp`. Layer 0 is in the layer set
`{0, 1}`, and the output of `engram_apply` is the `hidden_states` input, not something
different from it. -/
theorem scenario_A_layer_0_output_is_input :
    scenario_A_cfg.layer_ids[0]? = some 0 ∧
      llama_engram.engram_apply (engram_init scenario_A_cfg) (some empty_graph) ()
        (some scenario_A_hidden) (some scenario_A_tokens) 0
        = .ok (some empty_graph, some scenario_A_hidden) := by
  decide

/-- C4 (amended): `engram_init` validates nothing. For every config, valid or not, it
returns a non-null context that holds the config unchanged and has `initialized` set. -/
theorem engram_init_accepts_every_config (cfg : engram_config) :
    engram_init cfg = some { cfg := cfg, initialized := true } := by
  rfl

/-- C4 (counterexample): Scenario B. The config with the empty layer set violates the
config invariant, yet `engram_init` returns a context, and that context is usable:
`engram_apply` runs on it and returns. -/
theorem scenario_B_empty_layer_set_accepted :
    config_invariant_spec scenario_B_cfg = false ∧
      engram_init scenario_B_cfg = some { cfg := scenario_B_cfg, initialized := true } ∧
      llama_engram_complete.engram_apply ggml_add (engram_init scenario_B_cfg)
        (some empty_graph) () (some scenario_A_hidden) (some scenario_A_tokens) 0
        = .ok (some empty_graph, some scenario_A_hidden) := by
  decide

/-- C5 (amended): `engram_apply` never compares sequence lengths and has no
ShapeMismatch of its own. When the sequence length of `hidden_states` differs from that of
`input_ids`, for every initialized context whose layer array holds `n_layer_ids` entries
and every non-null graph context: `engram_apply` of `llama-engram.cpp` returns normally
with the `hidden_states` tensor itself, neither truncated nor padded, and adds no node; so
does `engram_apply` of `llama-engram-complete.cpp` on every layer outside the layer set;
and on a layer of the layer set `llama-engram-complete.cpp` hands both tensors unchecked
to the host add and returns `ggml_add(hidden_states, ggml_add(hidden_states, input_ids))`,
so that the call fails only where the host add does. -/
theorem engram_apply_ignores_sequence_length {G T M : Type} (ggml_add : ggml_add_t G T)
    (sequence_length : T → Nat) (c : engram_context) (g : G) (model : M) (h ids : T)
    (layer_id : Int) (hinit : c.initialized = true)
    (_hlen : sequence_length h ≠ sequence_length ids)
    (hread : c.cfg.n_layer_ids ≤ c.cfg.layer_ids.length) :
    llama_engram.engram_apply (some c) (some g) model (some h) (some ids) layer_id
        = .ok (some g, some h) ∧
      ((∀ i : Nat, (i : Int) < c.cfg.n_layer_ids → c.cfg.layer_ids[i]? ≠ some layer_id) →
        llama_engram_complete.engram_apply ggml_add (some c) (some g) model (some h)
          (some ids) layer_id = .ok (some g, some h)) ∧
      ((∃ j : Nat, (j : Int) < c.cfg.n_layer_ids ∧ c.cfg.layer_ids[j]? = some layer_id) →
        llama_engram_complete.engram_apply ggml_add (some c) (some g) model (some h)
          (some ids) layer_id =
        (ggml_add (some g) (some h) (some ids)).bind
          (fun gated =>
            (ggml_add (some gated.1) (some h) gated.2).map
              (fun sum => (some sum.1, sum.2)))) := by
  refine ⟨?_, ?_, ?_⟩
  · obtain ⟨b, hb⟩ := layer_loop_total c.cfg layer_id c.cfg.n_layer_ids.toNat 0 (by omega)
    exact engram_apply_simple_returns c g model _ _ layer_id hinit b hb
  · intro habsent
    have hloop : layer_loop c.cfg layer_id c.cfg.n_layer_ids.toNat 0 = .ok false := by
      refine layer_loop_absent c.cfg layer_id _ 0 (fun k _ hk => ?_)
      have hklen : k < c.cfg.layer_ids.length := by omega
      refine ⟨c.cfg.layer_ids[k], List.getElem?_eq_getElem hklen, fun hv => ?_⟩
      exact habsent k (by omega) (by rw [List.getElem?_eq_getElem hklen, hv])
    simp [llama_engram_complete.engram_apply, hinit, hloop, bind, Except.bind, pure,
      Except.pure]
  · rintro ⟨j, hj1, hj2⟩
    have hloop : layer_loop c.cfg layer_id c.cfg.n_layer_ids.toNat 0 = .ok true :=
      layer_loop_present c.cfg layer_id _ 0 ⟨j, Nat.zero_le j, by omega, hj2⟩
    simp only [llama_engram_complete.engram_apply, hinit, hloop, bind, Except.bind, pure,
      Except.pure, Except.map, apply_context_gating, compute_ngram_hashes, apply_short_conv]
    simp only [Bool.not_true, Option.isNone_some, Bool.or_self, Bool.false_eq_true, if_false]
    cases ggml_add (some g) (some h) (some ids) with
    | error e => rfl
    | ok gated => rfl

theorem engram_apply_ignores_sequence_length_witness :
    (llama_engram.engram_apply (some { cfg := scenario_A_cfg, initialized := true })
        (some empty_graph) () (some scenario_C_hidden) (some scenario_C_tokens) 5
        = .ok (some empty_graph, some scenario_C_hidden) ∧
      llama_engram_complete.engram_apply ggml_add
        (some { cfg := scenario_A_cfg, initialized := true }) (some empty_graph) ()
        (some scenario_C_hidden) (some scenario_C_tokens) 5
        = .ok (some empty_graph, some scenario_C_hidden)) ∧
      llama_engram_complete.engram_apply ggml_add
        (some { cfg := scenario_A_cfg, initialized := true }) (some empty_graph) ()
        (some scenario_C_hidden) (some scenario_C_tokens) 0 =
      (ggml_add (some empty_graph) (some scenario_C_hidden) (some scenario_C_tokens)).bind
        (fun gated =>
          (ggml_add (some gated.1) (some scenario_C_hidden) gated.2).map
            (fun sum => (some sum.1, sum.2))) :=
  ⟨⟨(engram_apply_ignores_sequence_length ggml_add ggml_tensor.sequence_length
        { cfg := scenario_A_cfg, initialized := true } empty_graph () scenario_C_hidden
        scenario_C_tokens 5 rfl (by decide) (by decide)).1,
      (engram_apply_ignores_sequence_length ggml_add ggml_tensor.sequence_length
        { cfg := scenario_A_cfg, initialized := true } empty_graph () scenario_C_hidden
        scenario_C_tokens 5 rfl (by decide) (by decide)).2.1 (by
          intro i hi
          have hi2 : i < 2 := by
            have hi3 : (i : Int) < 2 := hi
            omega
          interval_cases i <;> decide)⟩,
    (engram_apply_ignores_sequence_length ggml_add ggml_tensor.sequence_length
      { cfg := scenario_A_cfg, initialized := true } empty_graph () scenario_C_hidden
      scenario_C_tokens 0 rfl (by decide) (by decide)).2.2 ⟨0, by decide, rfl⟩⟩

/-- C5 (counterexample): Scenario C. The hidden states have sequence length 10, the token
ids sequence length 8, and the call does not fail: `engram_apply` of `llama-engram.cpp`
returns the hidden-state tensor (layer 0, in the layer set), and so does `engram_apply` of
`llama-engram-complete.cpp` on layer 5, outside the layer set. -/
theorem scenario_C_mismatch_returns_tensor :
    scenario_C_hidden.sequence_length = 10 ∧ scenario_C_tokens.sequence_length = 8 ∧
      llama_engram.engram_apply (engram_init scenario_A_cfg) (some empty_graph) ()
        (some scenario_C_hidden) (some scenario_C_tokens) 0
        = .ok (some empty_graph, some scenario_C_hidden) ∧
      llama_engram_complete.engram_apply ggml_add (engram_init scenario_A_cfg)
        (some empty_graph) () (some scenario_C_hidden) (some scenario_C_tokens) 5
        = .ok (some empty_graph, some scenario_C_hidden) := by
  decide

/-- C6: no-op gate. For every context, graph context, layer and pair of tensor pointers of
which `hidden_states` or `ngram_features` is null, `apply_context_gating` returns normally
with the `hidden_states` argument and leaves the graph context as it was: the host add is
not called, whatever it is. -/
theorem apply_context_gating_no_op {G T M : Type} (ggml_add : ggml_add_t G T)
    (ctx : Option engram_context) (ctx0 : Option G) (model : M)
    (hidden_states ngram_features : Option T) (layer_id : Int)
    (hnull : hidden_states = none ∨ ngram_features = none) :
    apply_context_gating ggml_add ctx ctx0 model hidden_states ngram_features layer_id
      = .ok (ctx0, hidden_states) := by
  rcases hnull with h | h <;> simp [apply_context_gating, h]

theorem apply_context_gating_no_op_witness :
    apply_context_gating ggml_add (engram_init scenario_A_cfg) (some empty_graph) ()
        (some scenario_A_hidden) none 0
      = .ok (some empty_graph, some scenario_A_hidden) :=
  apply_context_gating_no_op ggml_add (engram_init scenario_A_cfg) (some empty_graph) ()
    (some scenario_A_hidden) none 0 (Or.inr rfl)

/-! ## Determinism -/

end Engram
